import Mathlib

/-!
Verification of the Morse decoding core of the MorseDecoder repository.

The definitions below are a shallow embedding of the Python sources
(src/modules/morse_decoder.py, src/modules/auto_tune.py,
src/modules/signal_analyzer.py).  Sample amplitudes, durations and
thresholds are modelled as rationals; NumPy arrays become lists.
-/

namespace Morse

attribute [local semireducible] Rat.mul Rat.inv Rat.add Rat.sub Rat.ofScientific

/-- NumPy linear-interpolation percentile (np.percentile with the default
interpolation): sort the data, take index h = q * (n-1) / 100 and
interpolate linearly between the neighbouring entries.  Returns 0 on an
empty list (NumPy raises there; every use below is guarded or hypothesised
non-empty). -/
def percentile (l : List ℚ) (q : ℚ) : ℚ :=
  match l with
  | [] => 0
  | _ :: _ =>
    let s := l.insertionSort (· ≤ ·)
    let n : ℚ := (l.length : ℚ)
    let hq := q * (n - 1) / 100
    let lo := hq.floor.toNat
    let hi := hq.ceil.toNat
    let a := s.getD lo 0
    let b := s.getD hi 0
    a + (hq - (hq.floor : ℚ)) * (b - a)

/-- np.median, which is the 50th linear-interpolation percentile. -/
def npMedian (l : List ℚ) : ℚ := percentile l 50

/-- Pulse record produced by MorseDecoder.detect_pulses
(morse_decoder.py lines 213-216).  The source field named end is called
stop here because end is a Lean keyword. -/
structure Pulse where
  start : ℚ
  stop : ℚ
  duration : ℚ
  deriving DecidableEq, Repr

/-- 0/1 integer view of a binarised sample, as in
(envelope > threshold).astype(int) (morse_decoder.py line 201). -/
def b2i (b : Bool) : Int := if b then 1 else 0

/-- np.diff: successive differences of a list. -/
def npDiff {α : Type} [Sub α] : List α → List α
  | a :: b :: rest => (b - a) :: npDiff (b :: rest)
  | _ => []

/-- np.where(d == v)[0]: the increasing list of indices at which the list
takes the value v. -/
def whereEq (v : Int) : List Int → List ℕ
  | [] => []
  | x :: xs => if x = v then 0 :: (whereEq v xs).map (· + 1) else (whereEq v xs).map (· + 1)

/-- Binarisation of the envelope against the pulse-percentile threshold
(morse_decoder.py lines 198-201). -/
def binarize (envelope : List ℚ) (pulsePct : ℚ) : List Bool :=
  envelope.map (fun x => decide (percentile envelope pulsePct < x))

/-- np.diff(np.concatenate(([0], binary, [0]))) (morse_decoder.py line 204). -/
def edge_diff (binary : List Bool) : List Int :=
  npDiff ((0 : Int) :: binary.map b2i ++ [(0 : Int)])

/-- Rising-edge indices: np.where(diff == 1)[0] (morse_decoder.py line 205). -/
def edge_starts (binary : List Bool) : List ℕ := whereEq 1 (edge_diff binary)

/-- Falling-edge indices: np.where(diff == -1)[0] (morse_decoder.py line 206). -/
def edge_ends (binary : List Bool) : List ℕ := whereEq (-1) (edge_diff binary)

/-- MorseDecoder.detect_pulses (morse_decoder.py lines 193-224): threshold
the envelope at its pulse percentile, turn edge indices into pulse records
(times in seconds), and take the inter-pulse gaps
start_times[1:] - end_times[:-1] when there is more than one pulse. -/
def detect_pulses (envelope : List ℚ) (rate : ℚ) (pulsePct : ℚ) :
    List Pulse × List ℚ :=
  let starts := edge_starts (binarize envelope pulsePct)
  let ends := edge_ends (binarize envelope pulsePct)
  let pulses := (starts.zip ends).map (fun se =>
    { start := (se.1 : ℚ) / rate, stop := (se.2 : ℚ) / rate,
      duration := ((se.2 : ℚ) - (se.1 : ℚ)) / rate : Pulse })
  let gaps :=
    if 1 < pulses.length then
      List.zipWith (fun a b => a - b)
        ((starts.map (fun (i : ℕ) => (i : ℚ) / rate)).tail)
        ((ends.map (fun (i : ℕ) => (i : ℚ) / rate)).dropLast)
    else []
  (pulses, gaps)

/-- The unit-time estimate of MorseDecoder.classify_morse
(morse_decoder.py lines 249-262): the single duration when there are fewer
than two pulses, otherwise median(durations) / 1.5. -/
def unit_time (pulses : List Pulse) : ℚ :=
  let durations := pulses.map Pulse.duration
  let ds := durations.insertionSort (· ≤ ·)
  if ds.length < 2 then ds.headD 0
  else npMedian durations / 1.5

/-- The dot/dash classification loop of MorseDecoder.classify_morse
(morse_decoder.py lines 265-270): a pulse is a dot when its duration is
below unit_time * 2, else a dash. -/
def morse_symbols (pulses : List Pulse) : List String :=
  pulses.map (fun p => if p.duration < unit_time pulses * 2 then "." else "-")

/-- The walk of MorseDecoder.group_morse_symbols
(morse_decoder.py lines 307-327): gaps below the letter threshold extend
the current letter, gaps below the word threshold close it, larger gaps
close it and add the word-break sentinel.  The loop breaks when the
symbols run out before the gaps do (lines 311-312). -/
def group_loop (lt wt : ℚ) : List ℚ → List String → String → List String
  | [], _, cur => [cur]
  | _ :: _, [], cur => [cur]
  | g :: gs, s :: ss, cur =>
    if g < lt then group_loop lt wt gs ss (cur ++ s)
    else if g < wt then cur :: group_loop lt wt gs ss s
    else cur :: " " :: group_loop lt wt gs ss s

/-- MorseDecoder.group_morse_symbols (morse_decoder.py lines 282-327):
derive letter_threshold = p_dd * 1.5 and word_threshold = (p_ch + p_wd) / 2
from the gap percentiles, then run the grouping walk.  The unused
unit_time parameter of the source is omitted. -/
def group_morse_symbols (symbols : List String) (gaps : List ℚ)
    (ddq chq wdq : ℚ) : List String :=
  match symbols with
  | [] => []
  | s0 :: rest =>
    let p_dd := percentile gaps ddq
    let p_ch := percentile gaps chq
    let p_wd := percentile gaps wdq
    let letter_threshold := p_dd * 1.5
    let word_threshold := (p_ch + p_wd) / 2
    group_loop letter_threshold word_threshold gaps rest s0

/-- MorseDecoder.classify_morse (morse_decoder.py lines 244-280): empty
input gives an empty result, otherwise the dot/dash symbols are grouped
into letters and word breaks.  The WPM print of the source has no effect
on the returned value and is omitted. -/
def classify_morse (pulses : List Pulse) (gaps : List ℚ)
    (ddq chq wdq : ℚ) : List String :=
  if pulses.isEmpty then []
  else group_morse_symbols (morse_symbols pulses) gaps ddq chq wdq

/-- PROSIGNS_MORSE (morse_decoder.py lines 34-44), in source order. -/
def PROSIGNS_MORSE : List (String × String) :=
  [(".-.-.", "<AR>"), ("...-.-", "<SK>"), ("-...-", "<BT>"),
   ("-.-.-", "<CT>"), ("-.--.", "<KN>"), (".-...", "<AS>"),
   ("........", "<HH>"), ("...-.", "<SN>"), ("..-.", "<INT>")]

/-- MORSE_CODE_DICT_EN (morse_decoder.py lines 47-62), in source order. -/
def MORSE_CODE_DICT_EN : List (String × String) :=
  [(".-", "A"), ("-...", "B"), ("-.-.", "C"), ("-..", "D"), (".", "E"),
   ("..-.", "F"), ("--.", "G"), ("....", "H"), ("..", "I"), (".---", "J"),
   ("-.-", "K"), (".-..", "L"), ("--", "M"), ("-.", "N"), ("---", "O"),
   (".--.", "P"), ("--.-", "Q"), (".-.", "R"), ("...", "S"), ("-", "T"),
   ("..-", "U"), ("...-", "V"), (".--", "W"), ("-..-", "X"), ("-.--", "Y"),
   ("--..", "Z"),
   ("-----", "0"), (".----", "1"), ("..---", "2"), ("...--", "3"),
   ("....-", "4"), (".....", "5"), ("-....", "6"), ("--...", "7"),
   ("---..", "8"), ("----.", "9"),
   (".-.-.-", "."), ("--..--", ","), ("..--..", "?"), (".----.", "\x27"),
   ("-.-.--", "!"), ("-..-.", "/"), ("-.--.", "("), ("-.--.-", ")"),
   (".-...", "&"), ("---...", ":"), ("-.-.-.", ";"), ("-...-", "="),
   (".-.-.", "+"), ("-....-", "-"), ("..--.-", "_"), (".-..-.", "\x22"),
   ("...-..-", "$"), (".--.-.", "@")]

/-- MORSE_CODE_DICT_RU (morse_decoder.py lines 65-79), in source order.
The key ..-. appears twice in the source literal (lines 70 and 71); both
occurrences are kept, and pyDictGet resolves them with the last-wins rule
of a Python dict literal. -/
def MORSE_CODE_DICT_RU : List (String × String) :=
  [(".-", "А"), ("-...", "Б"), (".--", "В"), ("--.", "Г"), ("-..", "Д"),
   (".", "Е"), ("...-", "Ж"), ("--..", "З"), ("..", "И"), (".---", "Й"),
   ("-.-", "К"), (".-..", "Л"), ("--", "М"), ("-.", "Н"), ("---", "О"),
   (".--.", "П"), (".-.", "Р"), ("...", "С"), ("-", "Т"), ("..-", "У"),
   ("..-.", "Ф"), ("....", "Х"), ("-.-.", "Ц"), ("---.", "Ч"), ("----", "Ш"),
   ("--.-", "Щ"), ("-.--", "Ы"), ("-..-", "Ь"), ("..-.", "Э"), ("..--", "Ю"),
   (".-.-", "Я"),
   ("-----", "0"), (".----", "1"), ("..---", "2"), ("...--", "3"),
   ("....-", "4"), (".....", "5"), ("-....", "6"), ("--...", "7"),
   ("---..", "8"), ("----.", "9"),
   (".-.-.-", "."), ("--..--", ","), ("..--..", "?"), (".----.", "\x27"),
   ("-.-.--", "!"), ("-..-.", "/"), ("-.--.", "("), ("-.--.-", ")"),
   ("---...", ":"), ("-.-.-.", ";"), ("-...-", "=")]

/-- Lookup in the association-list view of a Python dict literal: the last
binding of a key wins, as when Python builds the dict. -/
def pyDictGet (entries : List (String × String)) (k : String) : Option String :=
  entries.reverse.lookup k

/-- The language selector of MorseDecoder.decode_morse
(morse_decoder.py line 331). -/
inductive Lang where
  | en
  | ru
  deriving DecidableEq

/-- The language table chosen on morse_decoder.py line 331. -/
def morse_dict : Lang → List (String × String)
  | .en => MORSE_CODE_DICT_EN
  | .ru => MORSE_CODE_DICT_RU

/-- One iteration of the loop of MorseDecoder.decode_morse
(morse_decoder.py lines 334-345): a space token is appended only when the
output is non-empty and does not already end in a space; otherwise the
prosign table is consulted first, then the language table, and an unknown
token becomes the sentinel. -/
def decode_step (entries : List (String × String)) (acc : List String)
    (letter : String) : List String :=
  if letter = " " then
    if acc ≠ [] ∧ acc.getLast? ≠ some " " then acc ++ [" "] else acc
  else
    match pyDictGet PROSIGNS_MORSE letter with
    | some v => acc ++ [v]
    | none =>
      match pyDictGet entries letter with
      | some v => acc ++ [v]
      | none => acc ++ ["□"]

/-- MorseDecoder.decode_morse (morse_decoder.py lines 329-348). -/
def decode_morse (letters : List String) (lang : Lang) : String :=
  String.join (letters.foldl (decode_step (morse_dict lang)) [])

/-- Python round on rationals: round half to even (banker's rounding). -/
def pyRound (x : ℚ) : ℤ :=
  if x - (x.floor : ℚ) < 1 / 2 then x.floor
  else if 1 / 2 < x - (x.floor : ℚ) then x.floor + 1
  else if x.floor % 2 = 0 then x.floor else x.floor + 1

/-- Python round(x, d): banker's rounding at d decimal digits. -/
def pyRoundTo (x : ℚ) (d : ℕ) : ℚ :=
  (pyRound (x * 10 ^ d) : ℚ) / 10 ^ d

/-- MorseDecoder.estimate_wpm (morse_decoder.py lines 226-242): 0 without
pulses, otherwise 1.2 over the median duration (0 when the median is not
positive), clamped to [10, 100] and rounded. -/
def estimate_wpm (pulses : List Pulse) : ℤ :=
  if pulses.isEmpty then 0
  else
    let durations := pulses.map Pulse.duration
    let u := npMedian durations
    let wpm : ℚ := if 0 < u then 1.2 / u else 0
    pyRound (max 10 (min 100 wpm))

/-- The stats dictionary assembled by MorseDecoder.process_file
(morse_decoder.py lines 402-408 and 461-467).  Keys absent in a branch are
modelled as none. -/
structure Stats where
  wpm : ℚ
  pulses : ℕ
  duration : ℚ
  pulse_threshold : ℚ
  error : Option String
  morse_code : Option String
  deriving DecidableEq

/-- total_dits = sum(len(m) for m in morse_letters if m != ' ')
(morse_decoder.py line 455). -/
def total_dits (letters : List String) : ℕ :=
  ((letters.filter (fun m => m ≠ " ")).map String.length).sum

/-- ' '.join(morse_letters) (morse_decoder.py line 417). -/
def joinWithSpace (letters : List String) : String :=
  String.intercalate " " letters

/-- The decoding part of MorseDecoder.process_file, from the detected
envelope on (morse_decoder.py lines 393-467): pulse detection, the
no-pulse early return with its error stats (lines 398-409), and otherwise
classification, both decodings and the stats block whose wpm is the
PARIS-formula value (total_dits / 50) / (duration / 60) rounded to one
digit.  The envelope has the length of the loaded audio, so the duration
len(audio) / sample_rate is modelled as envelope length over rate.  The
procedural-code and signal-analysis extras do not change the returned
texts or the stats fields modelled here. -/
def process_from_envelope (envelope : List ℚ) (rate : ℚ)
    (pulsePct ddq chq wdq : ℚ) : Option String × Option String × Stats :=
  let pg := detect_pulses envelope rate pulsePct
  let pulses := pg.1
  let gaps := pg.2
  let duration := (envelope.length : ℚ) / rate
  if pulses.isEmpty then
    (none, none,
      { wpm := 0, pulses := 0, duration := pyRoundTo duration 2,
        pulse_threshold := pulsePct, error := some "No pulses detected",
        morse_code := none })
  else
    let letters := classify_morse pulses gaps ddq chq wdq
    let td := total_dits letters
    let wpm : ℚ := if 0 < td ∧ 0 < duration then ((td : ℚ) / 50) / (duration / 60) else 0
    (some (decode_morse letters .en), some (decode_morse letters .ru),
      { wpm := pyRoundTo wpm 1, pulses := pulses.length,
        duration := pyRoundTo duration 2, pulse_threshold := pulsePct,
        error := none, morse_code := some (joinWithSpace letters) })

/-- Number of unknown-symbol sentinels in a decoded text
(auto_tune.py line 29). -/
def count_box (t : String) : ℕ := t.data.count '□'

/-- calculate_quality_score (auto_tune.py lines 20-62) as a function of the
decoded text, the stats wpm, and the sizes of the four recognised-code
lists of the codes analysis. -/
def calculate_quality_score (text : String) (wpm : ℚ)
    (q_codes z_codes prosigns callsigns : ℕ) : ℚ :=
  if text = "" then 0
  else
    let text_length : ℚ := (text.length : ℚ)
    let error_marks : ℚ := (count_box text : ℚ)
    let question_frac := error_marks / text_length
    let total_codes : ℚ := ((q_codes + z_codes + prosigns + callsigns : ℕ) : ℚ)
    min (text_length / 10) 100
      - question_frac * 200
      + total_codes * 10
      + (callsigns : ℚ) * 5
      + (if 5 ≤ wpm ∧ wpm ≤ 40 then 20 else -30)

/-- Modulation type returned by SignalAnalyzer.detect_modulation_type. -/
inductive ModType where
  | cw
  | psk31
  | rtty
  deriving DecidableEq, Repr

/-- The classification step of SignalAnalyzer.detect_modulation_type
(signal_analyzer.py lines 56-78), as a function of the spectral bandwidth
and the detected peak frequencies (both computed upstream from the FFT,
lines 30-54, not modelled): with two or more peaks the RTTY spacing test
runs on the diffs of the sorted peak frequencies, otherwise the PSK31 test
runs only under the bandwidth < 50 guard, and everything else stays CW
with confidence 80. -/
def rtty_spacing_test (peak_freqs : List ℚ) : Bool :=
  let ds := npDiff (peak_freqs.insertionSort (· ≤ ·))
  ds.any (fun d => decide (150 < d ∧ d < 200))
    || ds.any (fun d => decide (400 < d ∧ d < 500))

def detect_modulation_classify (bandwidth : ℚ) (peak_freqs : List ℚ) :
    ModType × ℚ :=
  if 2 ≤ peak_freqs.length then
    if rtty_spacing_test peak_freqs then (.rtty, 70) else (.cw, 80)
  else if bandwidth < 50 then
    if 20 < bandwidth ∧ bandwidth < 60 then (.psk31, 60) else (.cw, 80)
  else (.cw, 80)

/-- np.max(np.abs(audio)) (morse_decoder.py line 158); absolute values are
non-negative, so folding max from 0 agrees with NumPy on non-empty input. -/
def maxAbs (l : List ℚ) : ℚ := (l.map (fun x => |x|)).foldl max 0

/-- Error kind named by the spec for a silent input file. -/
inductive LoadError where
  | errSilentInput
  deriving DecidableEq

/-- The normalisation step of MorseDecoder.load_audio
(morse_decoder.py lines 156-158): the buffer is divided by its peak
absolute value unconditionally.  The Except carries the rejection kind the
spec asks for, which this code never produces; with a zero peak NumPy
fills the buffer with NaN, modelled here by the total rational division
x / 0 = 0. -/
def load_audio_normalize (audio : List ℚ) : Except LoadError (List ℚ) :=
  Except.ok (audio.map (fun x => x / maxAbs audio))

/-- The loader normalisation as the claim words it: a zero peak is
rejected with ErrSilentInput, otherwise the buffer is divided by the peak.
This is the claim-side refinement target to compare with
load_audio_normalize. -/
def load_audio_normalize_claim (audio : List ℚ) : Except LoadError (List ℚ) :=
  if maxAbs audio = 0 then Except.error LoadError.errSilentInput
  else Except.ok (audio.map (fun x => x / maxAbs audio))

/-- One step of the grouping walk as the claim words it, over one
gap-symbol pair: the state is the list of finished tokens and the current
letter. -/
def group_claim_step (lt wt : ℚ) (acc : List String × String)
    (gs : ℚ × String) : List String × String :=
  if gs.1 < lt then (acc.1, acc.2 ++ gs.2)
  else if gs.1 < wt then (acc.1 ++ [acc.2], gs.2)
  else (acc.1 ++ [acc.2, " "], gs.2)

/-- The grouping as the claim words it: thresholds
letter_threshold = p_dd * 1.5 and word_threshold = (p_ch + p_wd) / 2, then
a left-to-right fold over the gap-symbol pairs, closing the last letter at
the end.  This is the claim-side description to compare with
group_morse_symbols. -/
def group_claim (symbols : List String) (gaps : List ℚ)
    (ddq chq wdq : ℚ) : List String :=
  match symbols with
  | [] => []
  | s0 :: rest =>
    let lt := percentile gaps ddq * 1.5
    let wt := (percentile gaps chq + percentile gaps wdq) / 2
    let p := (gaps.zip rest).foldl (group_claim_step lt wt) ([], s0)
    p.1 ++ [p.2]

/-- Interleaving order of rising and falling edge indices: starts and ends
alternate strictly, beginning with a start, and every end precedes all
later starts. -/
inductive Alt : List ℕ → List ℕ → Prop where
  | nil : Alt [] []
  | cons {s e : ℕ} {ss es : List ℕ} :
      s < e → (∀ x ∈ ss, e < x) → Alt ss es → Alt (s :: ss) (e :: es)

/-- Edge alternation while inside a pulse: one pending end comes first,
below every later start, and the remaining edges alternate. -/
def AltPend (ss es : List ℕ) : Prop :=
  ∃ e es2, es = e :: es2 ∧ (∀ x ∈ ss, e < x) ∧ Alt ss es2

theorem ratFloor_intFloor (q : ℚ) : q.floor = ⌊q⌋ := by
  rw [Rat.floor_def, Rat.floor_def']

theorem ratFloor_zero : (0 : ℚ).floor = 0 := rfl

theorem ratCeil_zero : (0 : ℚ).ceil = 0 := rfl

theorem percentile_singleton (x q : ℚ) : percentile [x] q = x := by
  simp [percentile, List.insertionSort, List.orderedInsert, ratFloor_zero,
    ratCeil_zero]

theorem whereEq_cons (v x : Int) (xs : List Int) :
    whereEq v (x :: xs) =
      if x = v then 0 :: (whereEq v xs).map (· + 1)
      else (whereEq v xs).map (· + 1) := rfl

theorem npDiff_pad (p : Int) (b : Bool) (bs : List Bool) :
    npDiff (p :: (b :: bs).map b2i ++ [0]) =
      (b2i b - p) :: npDiff (b2i b :: bs.map b2i ++ [0]) := by
  simp [npDiff]

theorem alt_length {ss es : List ℕ} (h : Alt ss es) : ss.length = es.length := by
  induction h with
  | nil => rfl
  | cons _ _ _ ih => simp [ih]

theorem alt_map_succ {ss es : List ℕ} (h : Alt ss es) :
    Alt (ss.map (· + 1)) (es.map (· + 1)) := by
  induction h with
  | nil => exact Alt.nil
  | cons hse hlt _ ih =>
    simp only [List.map_cons]
    refine Alt.cons (by omega) (fun x hx => ?_) ih
    obtain ⟨y, hy, rfl⟩ := List.mem_map.mp hx
    exact Nat.succ_lt_succ (hlt y hy)

theorem altPend_map_succ {ss es : List ℕ} (h : AltPend ss es) :
    AltPend (ss.map (· + 1)) (es.map (· + 1)) := by
  obtain ⟨e, es2, rfl, hlt, ha⟩ := h
  refine ⟨e + 1, es2.map (· + 1), by simp, fun x hx => ?_, alt_map_succ ha⟩
  obtain ⟨y, hy, rfl⟩ := List.mem_map.mp hx
  exact Nat.succ_lt_succ (hlt y hy)

/-- Rising and falling edges of the zero-padded binarised signal
alternate: after a 0 prefix they pair up strictly, after a 1 prefix one
falling edge is pending first.  This is the structural fact behind
detect_pulses. -/
theorem edges_alt (bin : List Bool) :
    Alt (whereEq 1 (npDiff ((0 : Int) :: bin.map b2i ++ [0])))
        (whereEq (-1) (npDiff ((0 : Int) :: bin.map b2i ++ [0]))) ∧
    AltPend (whereEq 1 (npDiff ((1 : Int) :: bin.map b2i ++ [0])))
            (whereEq (-1) (npDiff ((1 : Int) :: bin.map b2i ++ [0]))) := by
  induction bin with
  | nil =>
    constructor
    · have e1 : whereEq 1 (npDiff ((0 : Int) :: List.map b2i [] ++ [0])) = [] := by decide
      have e2 : whereEq (-1) (npDiff ((0 : Int) :: List.map b2i [] ++ [0])) = [] := by decide
      rw [e1, e2]
      exact Alt.nil
    · have e1 : whereEq 1 (npDiff ((1 : Int) :: List.map b2i [] ++ [0])) = [] := by decide
      have e2 : whereEq (-1) (npDiff ((1 : Int) :: List.map b2i [] ++ [0])) = [0] := by decide
      rw [e1, e2]
      exact ⟨0, [], rfl, by simp, Alt.nil⟩
  | cons b bs ih =>
    obtain ⟨ih0, ih1⟩ := ih
    cases b with
    | false =>
      constructor
      · simp only [npDiff_pad, show b2i false = (0 : Int) from rfl]
        rw [whereEq_cons, whereEq_cons, if_neg (by decide), if_neg (by decide)]
        exact alt_map_succ ih0
      · simp only [npDiff_pad, show b2i false = (0 : Int) from rfl]
        rw [whereEq_cons, whereEq_cons, if_neg (by decide), if_pos (by decide)]
        refine ⟨0, _, rfl, fun x hx => ?_, alt_map_succ ih0⟩
        obtain ⟨y, _, rfl⟩ := List.mem_map.mp hx
        omega
    | true =>
      constructor
      · simp only [npDiff_pad, show b2i true = (1 : Int) from rfl]
        rw [whereEq_cons, whereEq_cons, if_pos (by decide), if_neg (by decide)]
        obtain ⟨e, es2, he, hlt, ha⟩ := ih1
        rw [he, List.map_cons]
        refine Alt.cons (by omega) (fun x hx => ?_) (alt_map_succ ha)
        obtain ⟨y, hy, rfl⟩ := List.mem_map.mp hx
        exact Nat.succ_lt_succ (hlt y hy)
      · simp only [npDiff_pad, show b2i true = (1 : Int) from rfl]
        rw [whereEq_cons, whereEq_cons, if_neg (by decide), if_neg (by decide)]
        exact altPend_map_succ ih1

theorem alt_get_lt {ss es : List ℕ} (h : Alt ss es) :
    ∀ k (h1 : k < ss.length) (h2 : k < es.length), ss[k] < es[k] := by
  induction h with
  | nil => intro k h1 _; simp at h1
  | cons hse hlt _ ih =>
    intro k h1 h2
    cases k with
    | zero => simpa using hse
    | succ n =>
      simp only [List.getElem_cons_succ]
      exact ih n (by simpa using h1) (by simpa using h2)

theorem alt_sep {ss es : List ℕ} (h : Alt ss es) :
    ∀ k (h1 : k + 1 < ss.length) (h2 : k < es.length), es[k] < ss[k + 1] := by
  induction h with
  | nil => intro k h1 _; simp at h1
  | cons hse hlt _ ih =>
    intro k h1 h2
    cases k with
    | zero =>
      simp only [List.getElem_cons_zero, List.getElem_cons_succ]
      exact hlt _ (List.getElem_mem _)
    | succ n =>
      simp only [List.getElem_cons_succ]
      exact ih n (by simpa using h1) (by simpa using h2)

theorem detect_pulses_fst (envelope : List ℚ) (rate pct : ℚ) :
    (detect_pulses envelope rate pct).1 =
      ((edge_starts (binarize envelope pct)).zip
        (edge_ends (binarize envelope pct))).map (fun se =>
          { start := (se.1 : ℚ) / rate, stop := (se.2 : ℚ) / rate,
            duration := ((se.2 : ℚ) - (se.1 : ℚ)) / rate : Pulse }) := rfl

theorem detect_pulses_snd (envelope : List ℚ) (rate pct : ℚ) :
    (detect_pulses envelope rate pct).2 =
      if 1 < (detect_pulses envelope rate pct).1.length then
        List.zipWith (fun a b => a - b)
          (((edge_starts (binarize envelope pct)).map
            (fun (i : ℕ) => (i : ℚ) / rate)).tail)
          (((edge_ends (binarize envelope pct)).map
            (fun (i : ℕ) => (i : ℚ) / rate)).dropLast)
      else [] := rfl

/-- C3.  For every envelope and sample rate (positive), detect_pulses
returns a gap list with max(0, pulses - 1) entries, every gap is
non-negative, every pulse starts strictly before it stops, consecutive
pulses do not overlap (each stop is at most the next start), and each gap
is exactly the time from one pulse stop to the next pulse start. -/
theorem C3_pulse_gap_invariants (envelope : List ℚ) (rate pct : ℚ)
    (hr : 0 < rate) :
    (((detect_pulses envelope rate pct).2.length : ℤ) =
        max 0 (((detect_pulses envelope rate pct).1.length : ℤ) - 1)) ∧
    (∀ g ∈ (detect_pulses envelope rate pct).2, 0 ≤ g) ∧
    (∀ p ∈ (detect_pulses envelope rate pct).1, p.start < p.stop) ∧
    List.Chain' (fun p q => p.stop ≤ q.start)
      (detect_pulses envelope rate pct).1 ∧
    (∀ k (h1 : k + 1 < (detect_pulses envelope rate pct).1.length)
        (h2 : k < (detect_pulses envelope rate pct).2.length),
      (detect_pulses envelope rate pct).2.get ⟨k, h2⟩ =
        ((detect_pulses envelope rate pct).1.get ⟨k + 1, h1⟩).start -
          ((detect_pulses envelope rate pct).1.get
            ⟨k, Nat.lt_of_succ_lt h1⟩).stop) := by
  have hAlt : Alt (edge_starts (binarize envelope pct))
      (edge_ends (binarize envelope pct)) := (edges_alt (binarize envelope pct)).1
  set S := edge_starts (binarize envelope pct) with hS
  set E := edge_ends (binarize envelope pct) with hE
  have hLen : S.length = E.length := alt_length hAlt
  have hPlen : (detect_pulses envelope rate pct).1.length = S.length := by
    rw [detect_pulses_fst, List.length_map, List.length_zip, hLen, min_self]
  have hGlen : (detect_pulses envelope rate pct).2.length =
      if 1 < S.length then S.length - 1 else 0 := by
    rw [detect_pulses_snd, hPlen]
    split
    · simp only [List.length_zipWith, List.length_tail, List.length_dropLast,
        List.length_map, ← hS, ← hE, hLen, min_self]
    · rfl
  have hPget : ∀ k (hk : k < (detect_pulses envelope rate pct).1.length)
      (hkS : k < S.length) (hkE : k < E.length),
      (detect_pulses envelope rate pct).1.get ⟨k, hk⟩ =
        { start := (S.get ⟨k, hkS⟩ : ℚ) / rate,
          stop := (E.get ⟨k, hkE⟩ : ℚ) / rate,
          duration := ((E.get ⟨k, hkE⟩ : ℚ) - (S.get ⟨k, hkS⟩ : ℚ)) / rate
          : Pulse } := by
    intro k hk hkS hkE
    simp only [detect_pulses_fst, List.get_eq_getElem, List.getElem_map,
      List.getElem_zip]
  have hGget : ∀ k (hk : k < (detect_pulses envelope rate pct).2.length)
      (hk1 : k + 1 < S.length) (hkE : k < E.length),
      (detect_pulses envelope rate pct).2.get ⟨k, hk⟩ =
        (S.get ⟨k + 1, hk1⟩ : ℚ) / rate - (E.get ⟨k, hkE⟩ : ℚ) / rate := by
    intro k hk hk1 hkE
    have hk2 := hk
    rw [hGlen] at hk2
    have hgt : 1 < S.length := by omega
    have hd : (detect_pulses envelope rate pct).2 =
        List.zipWith (fun a b => a - b)
          ((S.map (fun (i : ℕ) => (i : ℚ) / rate)).tail)
          ((E.map (fun (i : ℕ) => (i : ℚ) / rate)).dropLast) := by
      rw [detect_pulses_snd, hPlen, if_pos hgt]
    simp only [List.get_eq_getElem, hd, List.getElem_zipWith, List.getElem_tail,
      List.getElem_dropLast, List.getElem_map]
  refine ⟨?_, ?_, ?_, ?_, ?_⟩
  · rw [hGlen, hPlen]
    split <;> omega
  · intro g hg
    obtain ⟨⟨k, hk⟩, hke⟩ := List.mem_iff_get.mp hg
    have hk2 := hk
    rw [hGlen] at hk2
    have hgt : 1 < S.length := by
      by_contra hq
      rw [if_neg hq] at hk2
      omega
    rw [if_pos hgt] at hk2
    have hk1 : k + 1 < S.length := by omega
    have hkE : k < E.length := by omega
    rw [hGget k hk hk1 hkE] at hke
    rw [← hke, sub_nonneg]
    refine (div_le_div_iff_of_pos_right hr).mpr ?_
    have := alt_sep hAlt k hk1 hkE
    simp only [List.get_eq_getElem]
    exact_mod_cast le_of_lt this
  · intro p hp
    obtain ⟨⟨k, hk⟩, hke⟩ := List.mem_iff_get.mp hp
    have hkS : k < S.length := by omega
    have hkE : k < E.length := by omega
    rw [hPget k hk hkS hkE] at hke
    rw [← hke]
    refine (div_lt_div_iff_of_pos_right hr).mpr ?_
    have := alt_get_lt hAlt k hkS hkE
    simp only [List.get_eq_getElem]
    exact_mod_cast this
  · rw [List.chain'_iff_get]
    intro i hi
    have hi1 : i + 1 < (detect_pulses envelope rate pct).1.length := by omega
    have hiS : i < S.length := by omega
    have hiS1 : i + 1 < S.length := by omega
    have hiE : i < E.length := by omega
    have hiE1 : i + 1 < E.length := by omega
    rw [hPget i (by omega) hiS hiE, hPget (i + 1) hi1 hiS1 hiE1]
    refine (div_le_div_iff_of_pos_right hr).mpr ?_
    have := alt_sep hAlt i hiS1 hiE
    simp only [List.get_eq_getElem]
    exact_mod_cast le_of_lt this
  · intro k h1 h2
    have hk2 := h2
    rw [hGlen] at hk2
    have hgt : 1 < S.length := by
      by_contra hq
      rw [if_neg hq] at hk2
      omega
    rw [if_pos hgt] at hk2
    have hk1 : k + 1 < S.length := by omega
    have hkE : k < E.length := by omega
    have hkE1 : k + 1 < E.length := by omega
    rw [hGget k h2 hk1 hkE, hPget (k + 1) h1 hk1 hkE1,
      hPget k (Nat.lt_of_succ_lt h1) (by omega) hkE]

/-- C3 witness at a concrete envelope. -/
theorem C3_witness :
    ((detect_pulses [0, 0, 1, 1, 0] 1 85).2.length : ℤ) =
      max 0 (((detect_pulses [0, 0, 1, 1, 0] 1 85).1.length : ℤ) - 1) :=
  (C3_pulse_gap_invariants [0, 0, 1, 1, 0] 1 85 (by norm_num)).1

/-- C1.  The dot/dash classifier marks a pulse as a dot exactly when its
duration is under 2 times median(durations) / 1.5.  For two or more pulses
this is literally the computed unit; for a single pulse the source takes
the lone duration itself as the unit, and the two rules agree there as
well because any non-negative duration falls on the same side of both
boundaries. -/
theorem C1_dot_dash_rule (pulses : List Pulse) (hne : pulses ≠ [])
    (hnn : ∀ p ∈ pulses, 0 ≤ p.duration) :
    morse_symbols pulses =
      pulses.map (fun p =>
        if p.duration < 2 * (npMedian (pulses.map Pulse.duration) / 1.5)
        then "." else "-") := by
  unfold morse_symbols
  rcases pulses with _ | ⟨p, rest⟩
  · exact absurd rfl hne
  rcases rest with _ | ⟨p2, rest2⟩
  · have hd := hnn p (by simp)
    have hu : unit_time [p] = p.duration := by
      simp [unit_time, List.insertionSort, List.orderedInsert]
    have hm : npMedian [p.duration] = p.duration :=
      percentile_singleton p.duration 50
    simp only [List.map_cons, List.map_nil, hu, hm]
    rcases eq_or_lt_of_le hd with h | h
    · rw [← h]
      norm_num
    · have h15 : 2 * (p.duration / 1.5) = 4 / 3 * p.duration := by ring
      rw [h15, if_pos (by linarith), if_pos (by linarith)]
  · have hlen : ¬ (((p :: p2 :: rest2).map Pulse.duration).insertionSort
        (· ≤ ·)).length < 2 := by
      rw [List.length_insertionSort, List.length_map]
      simp
    have hu : unit_time (p :: p2 :: rest2) =
        npMedian ((p :: p2 :: rest2).map Pulse.duration) / 1.5 := by
      unfold unit_time
      rw [if_neg hlen]
    simp only [hu]
    refine List.map_congr_left (fun a _ => ?_)
    rw [mul_comm (npMedian ((p :: p2 :: rest2).map Pulse.duration) / 1.5) 2]

/-- C1 witness at a concrete pulse list. -/
theorem C1_witness :
    morse_symbols [⟨0, 1, 1⟩, ⟨2, 5, 3⟩] =
      ([⟨0, 1, 1⟩, ⟨2, 5, 3⟩] : List Pulse).map (fun p =>
        if p.duration <
            2 * (npMedian (([⟨0, 1, 1⟩, ⟨2, 5, 3⟩] : List Pulse).map
              Pulse.duration) / 1.5)
        then "." else "-") :=
  C1_dot_dash_rule [⟨0, 1, 1⟩, ⟨2, 5, 3⟩] (by decide) (by decide)

theorem group_loop_foldl (lt wt : ℚ) :
    ∀ (gaps : List ℚ) (ss : List String) (cur : String) (out : List String),
      ss.length = gaps.length →
      out ++ group_loop lt wt gaps ss cur =
        ((gaps.zip ss).foldl (group_claim_step lt wt) (out, cur)).1 ++
          [((gaps.zip ss).foldl (group_claim_step lt wt) (out, cur)).2] := by
  intro gaps
  induction gaps with
  | nil =>
    intro ss cur out h
    have : ss = [] := List.length_eq_zero.mp h
    subst this
    simp [group_loop]
  | cons g gs ih =>
    intro ss cur out h
    rcases ss with _ | ⟨s, ss2⟩
    · exact absurd h (by simp)
    have h2 : ss2.length = gs.length := by simpa using h
    rw [List.zip_cons_cons, List.foldl_cons]
    by_cases h1 : g < lt
    · rw [show group_loop lt wt (g :: gs) (s :: ss2) cur =
          group_loop lt wt gs ss2 (cur ++ s) by simp [group_loop, h1]]
      rw [show group_claim_step lt wt (out, cur) (g, s) = (out, cur ++ s) by
        simp [group_claim_step, h1]]
      exact ih ss2 (cur ++ s) out h2
    by_cases hw : g < wt
    · rw [show group_loop lt wt (g :: gs) (s :: ss2) cur =
          cur :: group_loop lt wt gs ss2 s by simp [group_loop, h1, hw]]
      rw [show group_claim_step lt wt (out, cur) (g, s) = (out ++ [cur], s) by
        simp [group_claim_step, h1, hw]]
      have hres := ih ss2 s (out ++ [cur]) h2
      rw [List.append_assoc] at hres
      simpa using hres
    · rw [show group_loop lt wt (g :: gs) (s :: ss2) cur =
          cur :: " " :: group_loop lt wt gs ss2 s by simp [group_loop, h1, hw]]
      rw [show group_claim_step lt wt (out, cur) (g, s) =
          (out ++ [cur, " "], s) by simp [group_claim_step, h1, hw]]
      have hres := ih ss2 s (out ++ [cur, " "]) h2
      rw [List.append_assoc] at hres
      simpa using hres

/-- C2.  When the symbol list has one more entry than the gap list (the
shape detect_pulses produces) and there is at least one gap, the grouping
of group_morse_symbols is exactly the left-to-right walk the claim
describes, with letter_threshold = p_dd * 1.5 and
word_threshold = (p_ch + p_wd) / 2 and the stated half-open gap ranges. -/
theorem C2_grouping (symbols : List String) (gaps : List ℚ)
    (ddq chq wdq : ℚ) (hlen : symbols.length = gaps.length + 1)
    (_hg : gaps ≠ []) :
    group_morse_symbols symbols gaps ddq chq wdq =
      group_claim symbols gaps ddq chq wdq := by
  rcases symbols with _ | ⟨s0, rest⟩
  · exact absurd hlen (by simp)
  · have h2 : rest.length = gaps.length := by simpa using hlen
    have := group_loop_foldl (percentile gaps ddq * 1.5)
      ((percentile gaps chq + percentile gaps wdq) / 2) gaps rest s0 [] h2
    simpa [group_morse_symbols, group_claim] using this

/-- C2 witness at a concrete symbol and gap list. -/
theorem C2_witness :
    group_morse_symbols [".", "-"] [1] 62 90 92 =
      group_claim [".", "-"] [1] 62 90 92 :=
  C2_grouping [".", "-"] [1] 62 90 92 (by decide) (by decide)

/-- C4.  On a letter token (anything but the word-break space), decoding
consults the prosign table first and the selected language table second,
and falls back to the unknown-symbol sentinel when both lookups miss. -/
theorem C4_prosign_priority (letter : String) (lang : Lang)
    (hsp : letter ≠ " ") :
    decode_morse [letter] lang =
      Option.getD ((pyDictGet PROSIGNS_MORSE letter).orElse
        (fun _ => pyDictGet (morse_dict lang) letter)) "□" := by
  unfold decode_morse
  simp only [List.foldl_cons, List.foldl_nil]
  unfold decode_step
  rw [if_neg hsp]
  cases hp : pyDictGet PROSIGNS_MORSE letter with
  | some v => rfl
  | none =>
    cases hd : pyDictGet (morse_dict lang) letter with
    | some v => rfl
    | none => rfl

/-- C4 witness: a token present in both the prosign table and the Latin
table. -/
theorem C4_witness :
    decode_morse [".-.-."] Lang.en =
      Option.getD ((pyDictGet PROSIGNS_MORSE ".-.-.").orElse
        (fun _ => pyDictGet (morse_dict Lang.en) ".-.-.")) "□" :=
  C4_prosign_priority ".-.-." Lang.en (by decide)

/-- C10.  The token ..-. is a prosign-table key, so both language
selectors decode it to the interrogation prosign and never to the letters
it names in the Latin or Cyrillic tables (in the Cyrillic source literal
the key is bound twice, so its dict value is the later letter). -/
theorem C10_int_prosign :
    decode_morse ["..-."] Lang.en = "<INT>" ∧
    decode_morse ["..-."] Lang.ru = "<INT>" ∧
    pyDictGet PROSIGNS_MORSE "..-." = some "<INT>" ∧
    pyDictGet MORSE_CODE_DICT_EN "..-." = some "F" ∧
    pyDictGet MORSE_CODE_DICT_RU "..-." = some "Э" ∧
    ("<INT>" : String) ≠ "F" ∧ ("<INT>" : String) ≠ "Ф" ∧
    ("<INT>" : String) ≠ "Э" := by
  decide

theorem le_pyRound {n : ℤ} {x : ℚ} (h : (n : ℚ) ≤ x) : n ≤ pyRound x := by
  unfold pyRound
  rw [ratFloor_intFloor]
  have hf : n ≤ ⌊x⌋ := Int.le_floor.mpr h
  split_ifs <;> omega

theorem pyRound_le {n : ℤ} {x : ℚ} (h : x ≤ (n : ℚ)) : pyRound x ≤ n := by
  unfold pyRound
  rw [ratFloor_intFloor]
  have hf : ⌊x⌋ ≤ n := by
    have := Int.floor_le_floor h
    simpa using this
  have hstrict : (1 : ℚ) / 2 ≤ x - (⌊x⌋ : ℚ) → ⌊x⌋ < n := by
    intro hr
    have h0 : (⌊x⌋ : ℚ) < x := by
      have : (0 : ℚ) < 1 / 2 := by norm_num
      linarith
    have : (⌊x⌋ : ℚ) < (n : ℚ) := lt_of_lt_of_le h0 h
    exact_mod_cast this
  split_ifs with h1 h2 h3
  · exact hf
  · have := hstrict (le_of_lt h2)
    omega
  · exact hf
  · have h4 : x - (⌊x⌋ : ℚ) = 1 / 2 := le_antisymm (not_lt.mp h2) (not_lt.mp h1)
    have := hstrict h4.ge
    omega

/-- C5 counterexample: a concrete two-pulse envelope on which the wpm
field of the process stats is 0.2, far below the claimed lower clamp 10. -/
theorem C5_counterexample :
    1 ≤ (process_from_envelope [0, 0, 0, 0, 0, 0, 1, 0, 1, 0] 1
      85 62 90 92).2.2.pulses ∧
    (process_from_envelope [0, 0, 0, 0, 0, 0, 1, 0, 1, 0] 1
      85 62 90 92).2.2.wpm = 1 / 5 ∧
    ¬ (10 ≤ (process_from_envelope [0, 0, 0, 0, 0, 0, 1, 0, 1, 0] 1
      85 62 90 92).2.2.wpm) := by
  decide

/-- C5 as amended.  The helper estimate_wpm does clamp
round(1.2 / median(durations)) into [10, 100] whenever at least one pulse
exists; the wpm field stored in the process stats instead uses the
unclamped PARIS formula (total_dits / 50) / (duration / 60) and can leave
that interval, as the counterexample shows. -/
theorem C5_estimate_clamped (pulses : List Pulse) (hne : pulses ≠ []) :
    10 ≤ estimate_wpm pulses ∧ estimate_wpm pulses ≤ 100 := by
  unfold estimate_wpm
  rw [if_neg (by simpa [List.isEmpty_iff] using hne)]
  constructor
  · refine le_pyRound ?_
    push_cast
    exact le_max_left _ _
  · refine pyRound_le ?_
    push_cast
    exact max_le (by norm_num) (min_le_left _ _)

/-- C5 witness for the amended statement. -/
theorem C5_witness :
    10 ≤ estimate_wpm [⟨0, 1, 1⟩] ∧ estimate_wpm [⟨0, 1, 1⟩] ≤ 100 :=
  C5_estimate_clamped [⟨0, 1, 1⟩] (by decide)

/-- C6.  Whenever pulse detection finds nothing, the process returns no
texts and the error-marked stats block (wpm 0, zero pulses, rounded
duration, the configured threshold, the no-pulse error message) instead of
raising: the embedded process function is total and this equation is its
value on that branch. -/
theorem C6_no_pulses (envelope : List ℚ) (rate pulsePct ddq chq wdq : ℚ)
    (h : (detect_pulses envelope rate pulsePct).1 = []) :
    process_from_envelope envelope rate pulsePct ddq chq wdq =
      (none, none,
        { wpm := 0, pulses := 0,
          duration := pyRoundTo ((envelope.length : ℚ) / rate) 2,
          pulse_threshold := pulsePct,
          error := some "No pulses detected", morse_code := none }) := by
  simp [process_from_envelope, h]

/-- C6 witness on a silent envelope. -/
theorem C6_witness :
    process_from_envelope [0, 0, 0, 0] 1 85 62 90 92 =
      (none, none,
        { wpm := 0, pulses := 0,
          duration := pyRoundTo ((List.length [(0 : ℚ), 0, 0, 0] : ℚ) / 1) 2,
          pulse_threshold := 85,
          error := some "No pulses detected", morse_code := none }) :=
  C6_no_pulses [0, 0, 0, 0] 1 85 62 90 92 (by decide)

theorem string_eq_empty_of_length {s : String} (h : s.length = 0) :
    s = "" := by
  cases s with
  | mk data =>
    have hd : data = [] := List.length_eq_zero.mp h
    subst hd
    rfl

theorem string_length_pos {s : String} (h : s ≠ "") : 0 < s.length :=
  Nat.pos_of_ne_zero (fun h0 => h (string_eq_empty_of_length h0))

/-- C7.  With text length, the recognised-code counts and the wpm all
fixed, the quality score never increases when the number of unknown-symbol
sentinels in the text grows. -/
theorem C7_box_monotone (t1 t2 : String) (wpm : ℚ) (q z pr c : ℕ)
    (hlen : t1.length = t2.length) (hbox : count_box t1 ≤ count_box t2) :
    calculate_quality_score t2 wpm q z pr c ≤
      calculate_quality_score t1 wpm q z pr c := by
  by_cases h1 : t1 = ""
  · have h2 : t2 = "" := string_eq_empty_of_length (by rw [← hlen, h1]; rfl)
    rw [h1, h2]
  · have h2 : t2 ≠ "" := by
      intro he
      exact h1 (string_eq_empty_of_length (by rw [hlen, he]; rfl))
    unfold calculate_quality_score
    rw [if_neg h1, if_neg h2, hlen]
    have hL : (0 : ℚ) < (t2.length : ℚ) := by
      exact_mod_cast string_length_pos h2
    have hq : (count_box t1 : ℚ) / (t2.length : ℚ) ≤
        (count_box t2 : ℚ) / (t2.length : ℚ) := by
      refine (div_le_div_iff_of_pos_right hL).mpr ?_
      exact_mod_cast hbox
    linarith

/-- C7 witness on two concrete texts of equal length. -/
theorem C7_witness :
    calculate_quality_score "A□" 10 0 0 0 0 ≤
      calculate_quality_score "AB" 10 0 0 0 0 :=
  C7_box_monotone "AB" "A□" 10 0 0 0 0 (by decide) (by decide)

/-- C8 counterexample: on a concrete zero-peak buffer the loader
normalisation returns an ordinary buffer (it divides by the peak
unconditionally), not the rejection the claim demands. -/
theorem C8_counterexample :
    load_audio_normalize [0, 0] = Except.ok [0, 0] ∧
    load_audio_normalize_claim [0, 0] =
      Except.error LoadError.errSilentInput ∧
    (Except.ok ([0, 0] : List ℚ) : Except LoadError (List ℚ)) ≠
      Except.error LoadError.errSilentInput := by
  refine ⟨?_, ?_, fun h => Except.noConfusion h⟩
  · show Except.ok ([0, 0].map (fun x => x / maxAbs [0, 0])) = Except.ok [0, 0]
    norm_num [maxAbs]
  · show load_audio_normalize_claim [0, 0] = Except.error LoadError.errSilentInput
    unfold load_audio_normalize_claim
    rw [if_pos (by norm_num [maxAbs])]

/-- C8 as amended.  The loader performs no zero-peak check: normalisation
always succeeds with the buffer divided by its peak, and on a zero-peak
buffer the division is by zero (every sample maps to the junk value 0 of
rational division; NumPy produces NaN there) instead of an ErrSilentInput
rejection. -/
theorem C8_no_silent_rejection (audio : List ℚ) :
    load_audio_normalize audio =
      Except.ok (audio.map (fun x => x / maxAbs audio)) ∧
    (maxAbs audio = 0 →
      load_audio_normalize audio =
        Except.ok (audio.map (fun _ => (0 : ℚ)))) := by
  refine ⟨rfl, fun h => ?_⟩
  unfold load_audio_normalize
  exact congrArg _ (List.map_congr_left (fun x _ => by rw [h, div_zero]))

/-- C8 witness for the amended statement. -/
theorem C8_witness :
    load_audio_normalize [1, -1] =
      Except.ok ([1, -1].map (fun x => x / maxAbs [1, -1])) ∧
    load_audio_normalize [0, 0] =
      Except.ok ([0, 0].map (fun _ => (0 : ℚ))) :=
  ⟨(C8_no_silent_rejection [1, -1]).1,
   (C8_no_silent_rejection [0, 0]).2 (by norm_num [maxAbs])⟩

/-- C9 counterexample: a spectrum with no secondary peaks and bandwidth
55 Hz lies inside the claimed PSK31 interval (20, 60) yet the classifier
returns CW with confidence 80, because the source guards the PSK31 test
with bandwidth < 50. -/
theorem C9_counterexample :
    detect_modulation_classify 55 [] = (ModType.cw, 80) ∧
    (20 : ℚ) < 55 ∧ (55 : ℚ) < 60 ∧
    (detect_modulation_classify 55 []).1 ≠ ModType.rtty ∧
    (detect_modulation_classify 55 []).1 ≠ ModType.psk31 := by
  refine ⟨rfl, by norm_num, by norm_num, ?_, ?_⟩ <;> decide

/-- C9 as amended.  The classifier returns PSK31 exactly when there are
fewer than two detected peaks and the bandwidth lies in (20, 50) (the
elif chain caps the claimed interval (20, 60) at the bandwidth < 50
guard, and two or more peaks always land in the RTTY/CW arm); every
non-RTTY non-PSK31 spectrum yields CW with confidence 80. -/
theorem C9_psk31_rule (bw : ℚ) (pf : List ℚ) :
    ((detect_modulation_classify bw pf).1 = ModType.psk31 ↔
      pf.length < 2 ∧ 20 < bw ∧ bw < 50) ∧
    ((detect_modulation_classify bw pf).1 ≠ ModType.rtty ∧
        (detect_modulation_classify bw pf).1 ≠ ModType.psk31 →
      detect_modulation_classify bw pf = (ModType.cw, 80)) := by
  unfold detect_modulation_classify
  by_cases h1 : 2 ≤ pf.length
  · rw [if_pos h1]
    by_cases h2 : rtty_spacing_test pf = true
    · rw [if_pos h2]
      exact ⟨⟨fun h => ModType.noConfusion h, fun hc => absurd h1 (by omega)⟩,
        fun h => absurd rfl h.1⟩
    · rw [if_neg h2]
      exact ⟨⟨fun h => ModType.noConfusion h, fun hc => absurd h1 (by omega)⟩,
        fun _ => rfl⟩
  · rw [if_neg h1]
    by_cases h3 : bw < 50
    · rw [if_pos h3]
      by_cases h4 : 20 < bw ∧ bw < 60
      · rw [if_pos h4]
        exact ⟨⟨fun _ => ⟨by omega, h4.1, h3⟩, fun _ => rfl⟩,
          fun h => absurd rfl h.2⟩
      · rw [if_neg h4]
        exact ⟨⟨fun h => ModType.noConfusion h,
          fun hc => absurd ⟨hc.2.1, by linarith [hc.2.2]⟩ h4⟩, fun _ => rfl⟩
    · rw [if_neg h3]
      exact ⟨⟨fun h => ModType.noConfusion h,
        fun hc => absurd hc.2.2 (by linarith)⟩, fun _ => rfl⟩

/-- C9 witness for the amended statement. -/
theorem C9_witness :
    (detect_modulation_classify 30 []).1 = ModType.psk31 ∧
    detect_modulation_classify 70 [] = (ModType.cw, 80) :=
  ⟨((C9_psk31_rule 30 []).1).mpr (by norm_num),
   (C9_psk31_rule 70 []).2 (by decide)⟩

end Morse
